import Mathlib

/-
Verification of the CRR binomial option pricing engine
(binomial_option_pricing_model.py and binomial_option_pricing_app.py).

Modelling conventions:
* Python/numpy floating point values are idealized as exact real numbers.
  A value of type `F := Option ℝ` is `some r` when the float is an ordinary
  finite real and `none` when it is non-finite (inf or nan).  numpy scalar
  division with a zero denominator does not raise: it emits a warning and
  produces a non-finite value which then propagates through arithmetic;
  `fdiv` therefore returns `none` on a zero denominator, and every
  arithmetic operation propagates `none`.
* The only Python-level (exception-raising) division in the sources is
  `dt = time_to_maturity / steps`, which raises ZeroDivisionError when
  `steps = 0`.  `np.zeros(steps + 1)` raises ValueError for a negative
  size, and reading `option_prices[k]` out of bounds raises IndexError.
  These are the `PyErr` outcomes of `run` / `calculate_prices`.
* numpy arrays are modelled as `List F`; in-place writes are `List.set`.
-/

abbrev F := Option ℝ

/-- Addition on idealized floats: `none` (non-finite) propagates. -/
def fadd : F → F → F
  | some a, some b => some (a + b)
  | _, _ => none

/-- Subtraction on idealized floats: `none` (non-finite) propagates. -/
def fsub : F → F → F
  | some a, some b => some (a - b)
  | _, _ => none

/-- Multiplication on idealized floats: `none` (non-finite) propagates. -/
def fmul : F → F → F
  | some a, some b => some (a * b)
  | _, _ => none

/-- numpy scalar division: a zero denominator yields a non-finite value
(inf or nan, conflated as `none`) and emits only a warning; `none`
operands propagate. -/
noncomputable def fdiv : F → F → F
  | some a, some b => if b = 0 then none else some (a / b)
  | _, _ => none

/-- Python runtime errors that the pricing code can raise.
`invalidParameter` is the error class the specification's §7 taxonomy
describes for `steps < 1`; it is included so that statements about it can
be made, but no code path produces it. -/
inductive PyErr where
  | zeroDivisionError
  | valueError
  | indexError
  | invalidParameter
  deriving DecidableEq

/-- The six scalar inputs of `BinomialOptionPricing.__init__`.
`steps` is a Python int, hence ℤ. -/
structure PricingParams where
  time_to_maturity : ℝ
  strike : ℝ
  current_price : ℝ
  volatility : ℝ
  interest_rate : ℝ
  steps : ℤ

/-- The six outputs stored on the instance by `run` / `calculate_prices`. -/
structure PricingResult where
  call_price : F
  put_price : F
  call_delta : F
  put_delta : F
  call_gamma : F
  put_gamma : F

/-- One in-place backward-induction update (the loop body
`option_prices[i] = np.exp(-interest_rate*dt) * (q*option_prices[i+1] +
(1-q)*option_prices[i])`, identical in both source files).  The reads at
`i+1` and `i` are always in bounds in every executed iteration, so the
`getD` defaults are never consulted there. -/
noncomputable def biStepAt (disc : ℝ) (q : F) (xs : List F) (i : ℕ) : List F :=
  xs.set i (fmul (some disc)
    (fadd (fmul q (xs.getD (i + 1) none)) (fmul (fsub (some 1) q) (xs.getD i none))))

/-- The inner loop `for i in range(j + 1)`: performs `fuel` updates
starting at index `i`. -/
noncomputable def biInner (disc : ℝ) (q : F) : List F → ℕ → ℕ → List F
  | xs, _, 0 => xs
  | xs, i, fuel + 1 => biInner disc q (biStepAt disc q xs i) (i + 1) fuel

/-- The outer loop `for j in range(steps - 1, -1, -1)`: with argument
`n + 1` the first processed level is `j = n`, matching the Python loop
that starts at `j = steps - 1` when called with `n + 1 = steps`. -/
noncomputable def biOuter (disc : ℝ) (q : F) : List F → ℕ → List F
  | xs, 0 => xs
  | xs, n + 1 => biOuter disc q (biInner disc q xs 0 (n + 1)) n

namespace BinomialModel

/-- `dt = time_to_maturity / steps` (line 29); Python float division,
total here because `run` raises ZeroDivisionError first when `steps = 0`. -/
noncomputable def lattice_dt (p : PricingParams) : ℝ :=
  p.time_to_maturity / (p.steps : ℝ)

/-- `u = np.exp(volatility * np.sqrt(dt))` (line 30). -/
noncomputable def lattice_u (p : PricingParams) : ℝ :=
  Real.exp (p.volatility * Real.sqrt (lattice_dt p))

/-- `d = 1 / u` (line 31); `u = exp …  > 0`, so this numpy division never
has a zero denominator. -/
noncomputable def lattice_d (p : PricingParams) : ℝ :=
  1 / lattice_u p

/-- `q = (np.exp(interest_rate*dt) - d) / (u - d)` (line 32); numpy
division, so a zero denominator (`u = d`) yields a non-finite value. -/
noncomputable def lattice_q (p : PricingParams) : F :=
  fdiv (some (Real.exp (p.interest_rate * lattice_dt p) - lattice_d p))
    (some (lattice_u p - lattice_d p))

/-- `np.exp(-interest_rate * dt)`, the per-level discount factor. -/
noncomputable def lattice_disc (p : PricingParams) : ℝ :=
  Real.exp (-p.interest_rate * lattice_dt p)

/-- Terminal call payoffs (lines 35-37):
`option_prices[i] = max(0, current_price * u**i * d**(steps-i) - strike)`
for `i in range(steps + 1)`, an array of length `steps + 1`. -/
noncomputable def callPayoffs (p : PricingParams) : List F :=
  List.ofFn (n := (p.steps + 1).toNat) fun i =>
    some (max 0 (p.current_price * lattice_u p ^ (i : ℕ) *
      lattice_d p ^ (p.steps.toNat - (i : ℕ)) - p.strike))

/-- Terminal put payoffs (lines 47-49):
`option_prices[i] = max(0, strike - current_price * u**i * d**(steps-i))`. -/
noncomputable def putPayoffs (p : PricingParams) : List F :=
  List.ofFn (n := (p.steps + 1).toNat) fun i =>
    some (max 0 (p.strike - p.current_price * lattice_u p ^ (i : ℕ) *
      lattice_d p ^ (p.steps.toNat - (i : ℕ))))

/-- The call-price array after full backward induction (lines 40-42). -/
noncomputable def callArray (p : PricingParams) : List F :=
  biOuter (lattice_disc p) (lattice_q p) (callPayoffs p) p.steps.toNat

/-- The put-price array after full backward induction (lines 52-54); the
Greeks are read from this residual array. -/
noncomputable def putArray (p : PricingParams) : List F :=
  biOuter (lattice_disc p) (lattice_q p) (putPayoffs p) p.steps.toNat

/-- The Delta denominator `current_price * u - current_price * d`
(line 63). -/
noncomputable def deltaDen (p : PricingParams) : ℝ :=
  p.current_price * lattice_u p - p.current_price * lattice_d p

/-- `BinomialOptionPricing.run` (binomial_option_pricing_model.py,
lines 20-69).  Error cases, in Python evaluation order: `steps = 0` makes
`time_to_maturity / steps` raise ZeroDivisionError; a negative
`steps + 1` makes `np.zeros(steps + 1)` raise ValueError; and the reads
`option_prices[0]` (lines 44 and 56), `option_prices[1]` and
`option_prices[2]` (lines 63-64) raise IndexError when out of bounds.
`option_prices[0]` at line 63 re-reads the entry already bound to
`put_price` at line 56 (the array is not mutated in between), so the same
binding is reused. -/
noncomputable def run (p : PricingParams) : Except PyErr PricingResult :=
  if p.steps = 0 then .error .zeroDivisionError
  else if p.steps + 1 < 0 then .error .valueError
  else
    match (callArray p)[0]? with
    | none => .error .indexError
    | some call_price =>
      match (putArray p)[0]? with
      | none => .error .indexError
      | some put_price =>
        match (putArray p)[1]? with
        | none => .error .indexError
        | some v1 =>
          let delta : F := fdiv (fsub v1 put_price) (some (deltaDen p))
          match (putArray p)[2]? with
          | none => .error .indexError
          | some v2 =>
            let gamma : F := fdiv (fadd (fsub v2 (fmul (some 2) v1)) put_price)
              (some (0.5 * deltaDen p ^ 2))
            .ok ⟨call_price, put_price, delta, fsub (some 1) delta, gamma, gamma⟩

end BinomialModel

namespace BinomialApp

/-- `BinomialOptionPricing.calculate_prices`
(binomial_option_pricing_app.py, lines 78-128): the copy of the pricing
routine embedded in the app file, translated independently from that
file.  Its body is line-for-line the model file's `run` (the app version
additionally returns the pair `(call_price, put_price)`, which carries no
extra information beyond the stored result). -/
noncomputable def calculate_prices (p : PricingParams) : Except PyErr PricingResult :=
  if p.steps = 0 then .error .zeroDivisionError
  else if p.steps + 1 < 0 then .error .valueError
  else
    let dt := p.time_to_maturity / (p.steps : ℝ)
    let u := Real.exp (p.volatility * Real.sqrt dt)
    let d := 1 / u
    let q := fdiv (some (Real.exp (p.interest_rate * dt) - d)) (some (u - d))
    let disc := Real.exp (-p.interest_rate * dt)
    let payoffC : List F := List.ofFn (n := (p.steps + 1).toNat) fun i =>
      some (max 0 (p.current_price * u ^ (i : ℕ) * d ^ (p.steps.toNat - (i : ℕ)) - p.strike))
    let arrC := biOuter disc q payoffC p.steps.toNat
    match arrC[0]? with
    | none => .error .indexError
    | some call_price =>
      let payoffP : List F := List.ofFn (n := (p.steps + 1).toNat) fun i =>
        some (max 0 (p.strike - p.current_price * u ^ (i : ℕ) * d ^ (p.steps.toNat - (i : ℕ))))
      let arrP := biOuter disc q payoffP p.steps.toNat
      match arrP[0]? with
      | none => .error .indexError
      | some put_price =>
        match arrP[1]? with
        | none => .error .indexError
        | some v1 =>
          let delta : F := fdiv (fsub v1 put_price)
            (some (p.current_price * u - p.current_price * d))
          match arrP[2]? with
          | none => .error .indexError
          | some v2 =>
            let gamma : F := fdiv (fadd (fsub v2 (fmul (some 2) v1)) put_price)
              (some (0.5 * (p.current_price * u - p.current_price * d) ^ 2))
            .ok ⟨call_price, put_price, delta, fsub (some 1) delta, gamma, gamma⟩

/-- One cell of the heatmap sweep (binomial_option_pricing_app.py,
lines 162-172): build a fresh `BinomialOptionPricing` with the base
parameters, the sweep's `spot` and `vol` and the fixed `strike`, call
`calculate_prices`, and record its call and put prices. -/
noncomputable def heatmapCell (base : PricingParams) (strike vol spot : ℝ) :
    Except PyErr (F × F) :=
  match calculate_prices ⟨base.time_to_maturity, strike, spot, vol,
      base.interest_rate, base.steps⟩ with
  | .ok r => .ok (r.call_price, r.put_price)
  | .error e => .error e

/-- The inner sweep loop `for j, spot in enumerate(spot_range)`:
sequential, an exception aborts the whole sweep. -/
noncomputable def cellsRow (base : PricingParams) (strike vol : ℝ) :
    List ℝ → Except PyErr (List (F × F))
  | [] => .ok []
  | s :: rest =>
    match heatmapCell base strike vol s with
    | .error e => .error e
    | .ok c =>
      match cellsRow base strike vol rest with
      | .error e => .error e
      | .ok cs => .ok (c :: cs)

/-- The outer sweep loop `for i, vol in enumerate(vol_range)`. -/
noncomputable def cellsGrid (base : PricingParams) (strike : ℝ) (spots : List ℝ) :
    List ℝ → Except PyErr (List (List (F × F)))
  | [] => .ok []
  | v :: rest =>
    match cellsRow base strike v spots with
    | .error e => .error e
    | .ok r =>
      match cellsGrid base strike spots rest with
      | .error e => .error e
      | .ok rs => .ok (r :: rs)

/-- The numeric content of `plot_heatmap` (binomial_option_pricing_app.py,
lines 156-172): the `len(vol_range) x len(spot_range)` grids
`call_prices` and `put_prices`, volatility indexing rows and spot
indexing columns.  The matplotlib/seaborn rendering is presentation glue
and is not modelled. -/
noncomputable def plot_heatmap (base : PricingParams) (spot_range vol_range : List ℝ)
    (strike : ℝ) : Except PyErr (List (List F) × List (List F)) :=
  match cellsGrid base strike spot_range vol_range with
  | .error e => .error e
  | .ok rows => .ok (rows.map (fun r => r.map Prod.fst), rows.map (fun r => r.map Prod.snd))

end BinomialApp

namespace ClaimSpec

/-
Definitions in this namespace follow the words of the specification /
claims (spec.md §4.1 steps 4-6), over exact reals, for comparison with
the code model above.
-/

/-- One overwrite of the claimed backward induction: node `i` becomes
`exp(-r*dt) * (q*value[i+1] + (1-q)*value[i])`, reading the
not-yet-overwritten value at `i+1`. -/
noncomputable def specStep (disc q : ℝ) (xs : List ℝ) (i : ℕ) : List ℝ :=
  xs.set i (disc * (q * xs.getD (i + 1) 0 + (1 - q) * xs.getD i 0))

/-- The claimed inner sweep over nodes `i = 0 .. j`: `fuel` overwrites
starting at node `i`. -/
noncomputable def specInner (disc q : ℝ) : List ℝ → ℕ → ℕ → List ℝ
  | xs, _, 0 => xs
  | xs, i, fuel + 1 => specInner disc q (specStep disc q xs i) (i + 1) fuel

/-- The claimed outer sweep over levels `j = steps-1 .. 0`. -/
noncomputable def specOuter (disc q : ℝ) : List ℝ → ℕ → List ℝ
  | xs, 0 => xs
  | xs, n + 1 => specOuter disc q (specInner disc q xs 0 (n + 1)) n

/-- The claimed terminal call payoff vector of length `steps + 1`: node
`i` holds `max(0, spot*u^i*d^(steps-i) - strike)`. -/
noncomputable def callTerminal (spot strike u d : ℝ) (n : ℕ) : List ℝ :=
  List.ofFn (n := n + 1) fun i => max 0 (spot * u ^ (i : ℕ) * d ^ (n - (i : ℕ)) - strike)

/-- The claimed terminal put payoff vector: node `i` holds
`max(0, strike - spot*u^i*d^(steps-i))`. -/
noncomputable def putTerminal (spot strike u d : ℝ) (n : ℕ) : List ℝ :=
  List.ofFn (n := n + 1) fun i => max 0 (strike - spot * u ^ (i : ℕ) * d ^ (n - (i : ℕ)))

/-- The call price of the claimed two-pass algorithm: with
`dt = T/steps`, `u = exp(vol*sqrt(dt))`, `d = 1/u`,
`q = (exp(r*dt)-d)/(u-d)`, build the terminal payoff vector, run the
backward induction to level 0 and return `value[0]`. -/
noncomputable def claimCallPrice (T strike spot vol r : ℝ) (n : ℕ) : ℝ :=
  let dt := T / (n : ℝ)
  let u := Real.exp (vol * Real.sqrt dt)
  let d := 1 / u
  let q := (Real.exp (r * dt) - d) / (u - d)
  let disc := Real.exp (-r * dt)
  (specOuter disc q (callTerminal spot strike u d n) n).getD 0 0

/-- The put price of the claimed two-pass algorithm. -/
noncomputable def claimPutPrice (T strike spot vol r : ℝ) (n : ℕ) : ℝ :=
  let dt := T / (n : ℝ)
  let u := Real.exp (vol * Real.sqrt dt)
  let d := 1 / u
  let q := (Real.exp (r * dt) - d) / (u - d)
  let disc := Real.exp (-r * dt)
  (specOuter disc q (putTerminal spot strike u d n) n).getD 0 0

end ClaimSpec

namespace BinomialModel

/-- The real value of the risk-neutral probability on a non-degenerate
lattice (`u ≠ d`), i.e. the payload of `lattice_q` when it is finite. -/
noncomputable def qReal (p : PricingParams) : ℝ :=
  (Real.exp (p.interest_rate * lattice_dt p) - lattice_d p) / (lattice_u p - lattice_d p)

/-- The claimed (real-valued) call array fed with the code's lattice
parameters, for comparison with `callArray`. -/
noncomputable def specCallArray (p : PricingParams) : List ℝ :=
  ClaimSpec.specOuter (lattice_disc p) (qReal p)
    (ClaimSpec.callTerminal p.current_price p.strike (lattice_u p) (lattice_d p) p.steps.toNat)
    p.steps.toNat

/-- The claimed (real-valued) put array fed with the code's lattice
parameters, for comparison with `putArray`. -/
noncomputable def specPutArray (p : PricingParams) : List ℝ :=
  ClaimSpec.specOuter (lattice_disc p) (qReal p)
    (ClaimSpec.putTerminal p.current_price p.strike (lattice_u p) (lattice_d p) p.steps.toNat)
    p.steps.toNat

end BinomialModel

/-- Concrete parameter set with rational lattice values:
`u = exp(log 2 * sqrt 1) = 2`, `d = 1/2`, `q = 1/3`, `disc = 1`. -/
noncomputable def pEx : PricingParams := ⟨2, 1, 1, Real.log 2, 0, 2⟩

/-- Concrete parameter set whose risk-neutral probability is `q = 2`,
outside `[0, 1]`: `u = 2`, `d = 1/2`, `exp(r*dt) = 7/2`, `disc = 2/7`. -/
noncomputable def pQbig : PricingParams := ⟨2, 3, 1, Real.log 2, Real.log (7 / 2), 2⟩

/-- Concrete parameter set with zero volatility (degenerate lattice). -/
def pVol0 : PricingParams := ⟨2, 1, 1, 0, 0, 2⟩

/-- Concrete parameter set with a single step. -/
def pOneStep : PricingParams := ⟨1, 1, 1, 1, 0, 1⟩

/-- Concrete parameter set with zero steps. -/
def pZeroSteps : PricingParams := ⟨1, 1, 1, 1, 0, 0⟩

/-- The result of the pricing call at `pEx`. -/
noncomputable def resEx : PricingResult :=
  ⟨some (1 / 3), some (1 / 3), some (-(2 / 9)), some (11 / 9), some (8 / 27), some (8 / 27)⟩

/-- The result of the pricing call at `pQbig`; note the negative put
price `-3/7`. -/
noncomputable def resQbig : PricingResult :=
  ⟨some (16 / 49), some (-(3 / 7)), some (-(2 / 21)), some (23 / 21),
    some (40 / 63), some (40 / 63)⟩

/-- The all-non-finite result returned when the lattice is degenerate. -/
def resNaN : PricingResult := ⟨none, none, none, none, none, none⟩

lemma biStepAt_length (disc : ℝ) (q : F) (xs : List F) (i : ℕ) :
    (biStepAt disc q xs i).length = xs.length := by
  simp [biStepAt]

lemma biInner_length (disc : ℝ) (q : F) :
    ∀ (fuel i : ℕ) (xs : List F), (biInner disc q xs i fuel).length = xs.length := by
  intro fuel
  induction fuel with
  | zero => intro i xs; rfl
  | succ f ih =>
    intro i xs
    simp only [biInner]
    rw [ih, biStepAt_length]

lemma biOuter_length (disc : ℝ) (q : F) :
    ∀ (n : ℕ) (xs : List F), (biOuter disc q xs n).length = xs.length := by
  intro n
  induction n with
  | zero => intro xs; rfl
  | succ k ih =>
    intro xs
    simp only [biOuter]
    rw [ih, biInner_length]

namespace ClaimSpec

lemma specStep_length (disc q : ℝ) (xs : List ℝ) (i : ℕ) :
    (specStep disc q xs i).length = xs.length := by
  simp [specStep]

lemma specInner_length (disc q : ℝ) :
    ∀ (fuel i : ℕ) (xs : List ℝ), (specInner disc q xs i fuel).length = xs.length := by
  intro fuel
  induction fuel with
  | zero => intro i xs; rfl
  | succ f ih =>
    intro i xs
    simp only [specInner]
    rw [ih, specStep_length]

lemma specOuter_length (disc q : ℝ) :
    ∀ (n : ℕ) (xs : List ℝ), (specOuter disc q xs n).length = xs.length := by
  intro n
  induction n with
  | zero => intro xs; rfl
  | succ k ih =>
    intro xs
    simp only [specOuter]
    rw [ih, specInner_length]

end ClaimSpec

lemma getD_map_some (xs : List ℝ) (k : ℕ) (h : k < xs.length) :
    (xs.map some).getD k none = some (xs.getD k 0) := by
  rw [List.getD_eq_getElem?_getD, List.getD_eq_getElem?_getD, List.getElem?_map]
  rw [List.getElem?_eq_getElem h]
  simp

lemma biStepAt_map (disc q : ℝ) (xs : List ℝ) (i : ℕ) (h : i + 1 < xs.length) :
    biStepAt disc (some q) (xs.map some) i = (ClaimSpec.specStep disc q xs i).map some := by
  have h1 := getD_map_some xs (i + 1) h
  have h2 := getD_map_some xs i (by omega)
  simp only [biStepAt, ClaimSpec.specStep, h1, h2, fmul, fadd, fsub]
  rw [List.map_set]

lemma biInner_map (disc q : ℝ) :
    ∀ (fuel i : ℕ) (xs : List ℝ), i + fuel < xs.length →
      biInner disc (some q) (xs.map some) i fuel =
        (ClaimSpec.specInner disc q xs i fuel).map some := by
  intro fuel
  induction fuel with
  | zero => intro i xs _; rfl
  | succ f ih =>
    intro i xs h
    simp only [biInner, ClaimSpec.specInner]
    rw [biStepAt_map disc q xs i (by omega)]
    exact ih (i + 1) (ClaimSpec.specStep disc q xs i)
      (by rw [ClaimSpec.specStep_length]; omega)

lemma biOuter_map (disc q : ℝ) :
    ∀ (m : ℕ) (xs : List ℝ), m < xs.length →
      biOuter disc (some q) (xs.map some) m =
        (ClaimSpec.specOuter disc q xs m).map some := by
  intro m
  induction m with
  | zero => intro xs _; rfl
  | succ k ih =>
    intro xs h
    simp only [biOuter, ClaimSpec.specOuter]
    rw [biInner_map disc q (k + 1) 0 xs (by omega)]
    exact ih (ClaimSpec.specInner disc q xs 0 (k + 1))
      (by rw [ClaimSpec.specInner_length]; omega)

lemma set_getD_nonneg (xs : List ℝ) (i : ℕ) (v : ℝ) (hv : 0 ≤ v)
    (hxs : ∀ j, 0 ≤ xs.getD j 0) (k : ℕ) : 0 ≤ (xs.set i v).getD k 0 := by
  rcases lt_or_ge k (xs.set i v).length with hk | hk
  · rw [List.getD_eq_getElem _ _ hk, List.getElem_set]
    split
    · exact hv
    · have h2 := hxs k
      rwa [List.getD_eq_getElem _ _ (by simpa using hk)] at h2
  · rw [List.getD_eq_default _ _ hk]

namespace ClaimSpec

lemma specStep_nonneg (disc q : ℝ) (hd : 0 ≤ disc) (h0 : 0 ≤ q) (h1 : q ≤ 1)
    (xs : List ℝ) (hxs : ∀ j, 0 ≤ xs.getD j 0) (i k : ℕ) :
    0 ≤ (specStep disc q xs i).getD k 0 := by
  rw [specStep]
  refine set_getD_nonneg xs i _ ?_ hxs k
  have ha := hxs (i + 1)
  have hb := hxs i
  have h1q : 0 ≤ 1 - q := by linarith
  positivity

lemma specInner_nonneg (disc q : ℝ) (hd : 0 ≤ disc) (h0 : 0 ≤ q) (h1 : q ≤ 1) :
    ∀ (fuel i : ℕ) (xs : List ℝ), (∀ j, 0 ≤ xs.getD j 0) →
      ∀ k, 0 ≤ (specInner disc q xs i fuel).getD k 0 := by
  intro fuel
  induction fuel with
  | zero => intro i xs hxs k; exact hxs k
  | succ f ih =>
    intro i xs hxs k
    simp only [specInner]
    exact ih (i + 1) _ (specStep_nonneg disc q hd h0 h1 xs hxs i) k

lemma specOuter_nonneg (disc q : ℝ) (hd : 0 ≤ disc) (h0 : 0 ≤ q) (h1 : q ≤ 1) :
    ∀ (n : ℕ) (xs : List ℝ), (∀ j, 0 ≤ xs.getD j 0) →
      ∀ k, 0 ≤ (specOuter disc q xs n).getD k 0 := by
  intro n
  induction n with
  | zero => intro xs hxs k; exact hxs k
  | succ m ih =>
    intro xs hxs k
    simp only [specOuter]
    exact ih _ (specInner_nonneg disc q hd h0 h1 (m + 1) 0 xs hxs) k

lemma callTerminal_nonneg (spot strike u d : ℝ) (n : ℕ) :
    ∀ k, 0 ≤ (callTerminal spot strike u d n).getD k 0 := by
  intro k
  rw [callTerminal]
  rcases lt_or_ge k (n + 1) with hk | hk
  · rw [List.getD_eq_getElem _ _ (by simpa using hk)]
    simp only [List.getElem_ofFn]
    exact le_max_left 0 _
  · rw [List.getD_eq_default _ _ (by simpa using hk)]

lemma putTerminal_nonneg (spot strike u d : ℝ) (n : ℕ) :
    ∀ k, 0 ≤ (putTerminal spot strike u d n).getD k 0 := by
  intro k
  rw [putTerminal]
  rcases lt_or_ge k (n + 1) with hk | hk
  · rw [List.getD_eq_getElem _ _ (by simpa using hk)]
    simp only [List.getElem_ofFn]
    exact le_max_left 0 _
  · rw [List.getD_eq_default _ _ (by simpa using hk)]

end ClaimSpec

namespace BinomialModel

lemma lattice_u_pos (p : PricingParams) : 0 < lattice_u p :=
  Real.exp_pos _

lemma lattice_dt_pos (p : PricingParams) (hT : 0 < p.time_to_maturity)
    (hs : 1 ≤ p.steps) : 0 < lattice_dt p := by
  rw [lattice_dt]
  apply div_pos hT
  exact_mod_cast (by omega : (0 : ℤ) < p.steps)

lemma one_lt_lattice_u (p : PricingParams) (hT : 0 < p.time_to_maturity)
    (hs : 1 ≤ p.steps) (hvol : 0 < p.volatility) : 1 < lattice_u p := by
  rw [lattice_u, show (1 : ℝ) = Real.exp 0 from Real.exp_zero.symm]
  apply Real.exp_lt_exp.mpr
  have hdt := lattice_dt_pos p hT hs
  have hsq : 0 < Real.sqrt (lattice_dt p) := Real.sqrt_pos.mpr hdt
  positivity

lemma lattice_d_pos (p : PricingParams) : 0 < lattice_d p := by
  rw [lattice_d]
  have := lattice_u_pos p
  positivity

lemma lattice_d_lt_one (p : PricingParams) (hT : 0 < p.time_to_maturity)
    (hs : 1 ≤ p.steps) (hvol : 0 < p.volatility) : lattice_d p < 1 := by
  rw [lattice_d, div_lt_one (lattice_u_pos p)]
  exact one_lt_lattice_u p hT hs hvol

lemma lattice_d_lt_u (p : PricingParams) (hT : 0 < p.time_to_maturity)
    (hs : 1 ≤ p.steps) (hvol : 0 < p.volatility) : lattice_d p < lattice_u p :=
  lt_trans (lattice_d_lt_one p hT hs hvol) (one_lt_lattice_u p hT hs hvol)

lemma lattice_q_eq_some (p : PricingParams) (hT : 0 < p.time_to_maturity)
    (hs : 1 ≤ p.steps) (hvol : 0 < p.volatility) :
    lattice_q p = some (qReal p) := by
  have hne : lattice_u p - lattice_d p ≠ 0 :=
    sub_ne_zero.mpr (ne_of_gt (lattice_d_lt_u p hT hs hvol))
  rw [lattice_q, qReal, fdiv]
  simp [hne]

lemma lattice_disc_pos (p : PricingParams) : 0 < lattice_disc p :=
  Real.exp_pos _

end BinomialModel

lemma fmul_none_left (x : F) : fmul none x = none := by cases x <;> rfl

lemma fmul_none_right (x : F) : fmul x none = none := by cases x <;> rfl

lemma fadd_none_left (x : F) : fadd none x = none := by cases x <;> rfl

lemma fadd_none_right (x : F) : fadd x none = none := by cases x <;> rfl

lemma fsub_none_left (x : F) : fsub none x = none := by cases x <;> rfl

lemma fsub_none_right (x : F) : fsub x none = none := by cases x <;> rfl

lemma fdiv_none_right (x : F) : fdiv x none = none := by cases x <;> rfl

lemma fdiv_zero_denom (x : F) : fdiv x (some 0) = none := by
  cases x <;> simp [fdiv]

lemma biOuter_none_getElem_zero (disc : ℝ) :
    ∀ (n : ℕ) (xs : List F), 0 < xs.length →
      (biOuter disc none xs (n + 1))[0]? = some none := by
  intro n
  induction n with
  | zero =>
    intro xs hx
    show (biStepAt disc none xs 0)[0]? = some none
    rw [biStepAt, fmul_none_left, fadd_none_left, fmul_none_right]
    exact List.getElem?_set_eq_of_lt _ hx
  | succ m ih =>
    intro xs hx
    show (biOuter disc none (biInner disc none xs 0 (m + 2)) (m + 1))[0]? = some none
    exact ih _ (by rw [biInner_length]; exact hx)

namespace BinomialModel

lemma callPayoffs_eq (p : PricingParams) (hs : 0 ≤ p.steps) :
    callPayoffs p = (ClaimSpec.callTerminal p.current_price p.strike
      (lattice_u p) (lattice_d p) p.steps.toNat).map some := by
  have hlen : (p.steps + 1).toNat = p.steps.toNat + 1 := by omega
  rw [callPayoffs, ClaimSpec.callTerminal, List.map_ofFn, hlen]
  rfl

lemma putPayoffs_eq (p : PricingParams) (hs : 0 ≤ p.steps) :
    putPayoffs p = (ClaimSpec.putTerminal p.current_price p.strike
      (lattice_u p) (lattice_d p) p.steps.toNat).map some := by
  have hlen : (p.steps + 1).toNat = p.steps.toNat + 1 := by omega
  rw [putPayoffs, ClaimSpec.putTerminal, List.map_ofFn, hlen]
  rfl

lemma callArray_eq (p : PricingParams) (hT : 0 < p.time_to_maturity)
    (hs : 1 ≤ p.steps) (hvol : 0 < p.volatility) :
    callArray p = (specCallArray p).map some := by
  rw [callArray, specCallArray, callPayoffs_eq p (by omega),
    lattice_q_eq_some p hT hs hvol]
  apply biOuter_map
  rw [ClaimSpec.callTerminal, List.length_ofFn]
  omega

lemma putArray_eq (p : PricingParams) (hT : 0 < p.time_to_maturity)
    (hs : 1 ≤ p.steps) (hvol : 0 < p.volatility) :
    putArray p = (specPutArray p).map some := by
  rw [putArray, specPutArray, putPayoffs_eq p (by omega),
    lattice_q_eq_some p hT hs hvol]
  apply biOuter_map
  rw [ClaimSpec.putTerminal, List.length_ofFn]
  omega

lemma callArray_length (p : PricingParams) :
    (callArray p).length = (p.steps + 1).toNat := by
  rw [callArray, biOuter_length, callPayoffs, List.length_ofFn]

lemma putArray_length (p : PricingParams) :
    (putArray p).length = (p.steps + 1).toNat := by
  rw [putArray, biOuter_length, putPayoffs, List.length_ofFn]

lemma run_ok_intro (p : PricingParams) (c v0 v1 v2 : F)
    (h0 : p.steps ≠ 0) (h1 : ¬p.steps + 1 < 0)
    (hc : (callArray p)[0]? = some c)
    (hp0 : (putArray p)[0]? = some v0)
    (hp1 : (putArray p)[1]? = some v1)
    (hp2 : (putArray p)[2]? = some v2) :
    run p = .ok ⟨c, v0, fdiv (fsub v1 v0) (some (deltaDen p)),
      fsub (some 1) (fdiv (fsub v1 v0) (some (deltaDen p))),
      fdiv (fadd (fsub v2 (fmul (some 2) v1)) v0) (some (0.5 * deltaDen p ^ 2)),
      fdiv (fadd (fsub v2 (fmul (some 2) v1)) v0) (some (0.5 * deltaDen p ^ 2))⟩ := by
  rw [run, if_neg h0, if_neg h1, hc, hp0, hp1, hp2]

lemma run_ok_elim (p : PricingParams) (res : PricingResult) (h : run p = .ok res) :
    ∃ c v0 v1 v2, (callArray p)[0]? = some c ∧ (putArray p)[0]? = some v0 ∧
      (putArray p)[1]? = some v1 ∧ (putArray p)[2]? = some v2 ∧
      res = ⟨c, v0, fdiv (fsub v1 v0) (some (deltaDen p)),
        fsub (some 1) (fdiv (fsub v1 v0) (some (deltaDen p))),
        fdiv (fadd (fsub v2 (fmul (some 2) v1)) v0) (some (0.5 * deltaDen p ^ 2)),
        fdiv (fadd (fsub v2 (fmul (some 2) v1)) v0) (some (0.5 * deltaDen p ^ 2))⟩ := by
  rw [run] at h
  split at h
  · exact absurd h (by simp)
  split at h
  · exact absurd h (by simp)
  split at h
  next => exact absurd h (by simp)
  next c heqc =>
    split at h
    next => exact absurd h (by simp)
    next v0 heq0 =>
      split at h
      next => exact absurd h (by simp)
      next v1 heq1 =>
        split at h
        next => exact absurd h (by simp)
        next v2 heq2 =>
          refine ⟨c, v0, v1, v2, heqc, heq0, heq1, heq2, ?_⟩
          injection h with h2
          exact h2.symm

lemma run_ok_of_steps_ge_two (p : PricingParams) (hs : 2 ≤ p.steps) :
    ∃ res, run p = .ok res := by
  have hlc : (callArray p).length = (p.steps + 1).toNat := callArray_length p
  have hlp : (putArray p).length = (p.steps + 1).toNat := putArray_length p
  have hc0 : 0 < (callArray p).length := by omega
  have hq0 : 0 < (putArray p).length := by omega
  have hq1 : 1 < (putArray p).length := by omega
  have hq2 : 2 < (putArray p).length := by omega
  exact ⟨_, run_ok_intro p _ _ _ _ (by omega) (by omega)
    (List.getElem?_eq_getElem hc0) (List.getElem?_eq_getElem hq0)
    (List.getElem?_eq_getElem hq1) (List.getElem?_eq_getElem hq2)⟩

end BinomialModel

namespace BinomialModel

lemma lattice_dt_pEx : lattice_dt pEx = 1 := by
  rw [lattice_dt]
  have h1 : pEx.time_to_maturity = 2 := rfl
  have h2 : pEx.steps = 2 := rfl
  rw [h1, h2]
  norm_num

lemma lattice_u_pEx : lattice_u pEx = 2 := by
  have h : pEx.volatility = Real.log 2 := rfl
  rw [lattice_u, lattice_dt_pEx, Real.sqrt_one, h, mul_one]
  exact Real.exp_log (by norm_num)

lemma lattice_d_pEx : lattice_d pEx = 1 / 2 := by
  rw [lattice_d, lattice_u_pEx]

lemma lattice_q_pEx : lattice_q pEx = some (1 / 3) := by
  have hr : pEx.interest_rate = 0 := rfl
  rw [lattice_q, lattice_u_pEx, lattice_d_pEx, lattice_dt_pEx, hr, zero_mul,
    Real.exp_zero]
  simp only [fdiv]
  norm_num

lemma lattice_disc_pEx : lattice_disc pEx = 1 := by
  have hr : pEx.interest_rate = 0 := rfl
  rw [lattice_disc, hr, lattice_dt_pEx]
  norm_num

lemma callPayoffs_pEx : callPayoffs pEx = [some 0, some 0, some 3] := by
  rw [callPayoffs, lattice_u_pEx, lattice_d_pEx]
  norm_num [pEx, List.ofFn_succ, show Int.toNat 2 = 2 from rfl]

lemma putPayoffs_pEx : putPayoffs pEx = [some (3 / 4), some 0, some 0] := by
  rw [putPayoffs, lattice_u_pEx, lattice_d_pEx]
  norm_num [pEx, List.ofFn_succ, show Int.toNat 2 = 2 from rfl]

lemma callArray_pEx : callArray pEx = [some (1 / 3), some 1, some 3] := by
  rw [callArray, callPayoffs_pEx, lattice_q_pEx, lattice_disc_pEx]
  have hm : pEx.steps.toNat = 2 := rfl
  rw [hm]
  norm_num [biOuter, biInner, biStepAt, fmul, fadd, fsub, List.getD]

lemma putArray_pEx : putArray pEx = [some (1 / 3), some 0, some 0] := by
  rw [putArray, putPayoffs_pEx, lattice_q_pEx, lattice_disc_pEx]
  have hm : pEx.steps.toNat = 2 := rfl
  rw [hm]
  norm_num [biOuter, biInner, biStepAt, fmul, fadd, fsub, List.getD]

lemma deltaDen_pEx : deltaDen pEx = 3 / 2 := by
  have hS : pEx.current_price = 1 := rfl
  rw [deltaDen, lattice_u_pEx, lattice_d_pEx, hS]
  norm_num

lemma run_pEx : run pEx = .ok resEx := by
  have h := run_ok_intro pEx (some (1 / 3)) (some (1 / 3)) (some 0) (some 0)
    (by norm_num [pEx]) (by norm_num [pEx])
    (by rw [callArray_pEx]; rfl) (by rw [putArray_pEx]; rfl)
    (by rw [putArray_pEx]; rfl) (by rw [putArray_pEx]; rfl)
  rw [h, deltaDen_pEx]
  simp only [resEx, fdiv, fsub, fadd, fmul]
  norm_num

end BinomialModel

namespace BinomialModel

lemma lattice_dt_pQbig : lattice_dt pQbig = 1 := by
  rw [lattice_dt]
  have h1 : pQbig.time_to_maturity = 2 := rfl
  have h2 : pQbig.steps = 2 := rfl
  rw [h1, h2]
  norm_num

lemma lattice_u_pQbig : lattice_u pQbig = 2 := by
  have h : pQbig.volatility = Real.log 2 := rfl
  rw [lattice_u, lattice_dt_pQbig, Real.sqrt_one, h, mul_one]
  exact Real.exp_log (by norm_num)

lemma lattice_d_pQbig : lattice_d pQbig = 1 / 2 := by
  rw [lattice_d, lattice_u_pQbig]

lemma lattice_q_pQbig : lattice_q pQbig = some 2 := by
  have hr : pQbig.interest_rate = Real.log (7 / 2) := rfl
  rw [lattice_q, lattice_u_pQbig, lattice_d_pQbig, lattice_dt_pQbig, hr, mul_one,
    Real.exp_log (by norm_num : (0:ℝ) < 7 / 2)]
  simp only [fdiv]
  norm_num

lemma lattice_disc_pQbig : lattice_disc pQbig = 2 / 7 := by
  have hr : pQbig.interest_rate = Real.log (7 / 2) := rfl
  rw [lattice_disc, hr, lattice_dt_pQbig, mul_one, Real.exp_neg,
    Real.exp_log (by norm_num : (0:ℝ) < 7 / 2)]
  norm_num

lemma callPayoffs_pQbig : callPayoffs pQbig = [some 0, some 0, some 1] := by
  rw [callPayoffs, lattice_u_pQbig, lattice_d_pQbig]
  norm_num [pQbig, List.ofFn_succ, show Int.toNat 2 = 2 from rfl]

lemma putPayoffs_pQbig : putPayoffs pQbig = [some (11 / 4), some 2, some 0] := by
  rw [putPayoffs, lattice_u_pQbig, lattice_d_pQbig]
  norm_num [pQbig, List.ofFn_succ, show Int.toNat 2 = 2 from rfl]

lemma callArray_pQbig : callArray pQbig = [some (16 / 49), some (4 / 7), some 1] := by
  rw [callArray, callPayoffs_pQbig, lattice_q_pQbig, lattice_disc_pQbig]
  have hm : pQbig.steps.toNat = 2 := rfl
  rw [hm]
  norm_num [biOuter, biInner, biStepAt, fmul, fadd, fsub, List.getD]

lemma putArray_pQbig : putArray pQbig = [some (-(3 / 7)), some (-(4 / 7)), some 0] := by
  rw [putArray, putPayoffs_pQbig, lattice_q_pQbig, lattice_disc_pQbig]
  have hm : pQbig.steps.toNat = 2 := rfl
  rw [hm]
  norm_num [biOuter, biInner, biStepAt, fmul, fadd, fsub, List.getD]

lemma deltaDen_pQbig : deltaDen pQbig = 3 / 2 := by
  have hS : pQbig.current_price = 1 := rfl
  rw [deltaDen, lattice_u_pQbig, lattice_d_pQbig, hS]
  norm_num

lemma run_pQbig : run pQbig = .ok resQbig := by
  have h := run_ok_intro pQbig (some (16 / 49)) (some (-(3 / 7))) (some (-(4 / 7)))
    (some 0)
    (by norm_num [pQbig]) (by norm_num [pQbig])
    (by rw [callArray_pQbig]; rfl) (by rw [putArray_pQbig]; rfl)
    (by rw [putArray_pQbig]; rfl) (by rw [putArray_pQbig]; rfl)
  rw [h, deltaDen_pQbig]
  simp only [resQbig, fdiv, fsub, fadd, fmul]
  norm_num

lemma lattice_q_vol0 (p : PricingParams) (hvol : p.volatility = 0) :
    lattice_q p = none := by
  have hu : lattice_u p = 1 := by
    rw [lattice_u, hvol, zero_mul, Real.exp_zero]
  have hd : lattice_d p = 1 := by
    rw [lattice_d, hu]
    norm_num
  rw [lattice_q, hu, hd, sub_self]
  exact fdiv_zero_denom _

lemma run_vol0 (p : PricingParams) (hvol : p.volatility = 0) (hs : 2 ≤ p.steps) :
    run p = .ok resNaN := by
  have hq := lattice_q_vol0 p hvol
  have hlc := callArray_length p
  have hlp := putArray_length p
  have hpc : (callPayoffs p).length = (p.steps + 1).toNat := by
    rw [callPayoffs, List.length_ofFn]
  have hpp : (putPayoffs p).length = (p.steps + 1).toNat := by
    rw [putPayoffs, List.length_ofFn]
  have hn : ∃ m, p.steps.toNat = m + 1 := ⟨p.steps.toNat - 1, by omega⟩
  obtain ⟨m, hm⟩ := hn
  have hc0 : (callArray p)[0]? = some none := by
    rw [callArray, hq, hm]
    exact biOuter_none_getElem_zero _ m _ (by omega)
  have hp0 : (putArray p)[0]? = some none := by
    rw [putArray, hq, hm]
    exact biOuter_none_getElem_zero _ m _ (by omega)
  have hq1 : 1 < (putArray p).length := by omega
  have hq2 : 2 < (putArray p).length := by omega
  have h := run_ok_intro p none none ((putArray p)[1]) ((putArray p)[2])
    (by omega) (by omega) hc0 hp0
    (List.getElem?_eq_getElem hq1) (List.getElem?_eq_getElem hq2)
  rw [h, fsub_none_right, fadd_none_right]
  have h1 : fdiv none (some (deltaDen p)) = none := rfl
  have h2 : fdiv none (some (0.5 * deltaDen p ^ 2)) = none := rfl
  rw [h1, h2, fsub_none_right]
  rfl

end BinomialModel

namespace BinomialModel

lemma run_steps1 (p : PricingParams) (hs : p.steps = 1) :
    run p = .error .indexError := by
  have hlp := putArray_length p
  have hlc := callArray_length p
  have hc0 : 0 < (callArray p).length := by omega
  have hp0 : 0 < (putArray p).length := by omega
  have hp1 : 1 < (putArray p).length := by omega
  have hp2 : (putArray p)[2]? = none := List.getElem?_eq_none (by omega)
  rw [run, if_neg (by omega), if_neg (by omega),
    List.getElem?_eq_getElem hc0, List.getElem?_eq_getElem hp0,
    List.getElem?_eq_getElem hp1, hp2]

lemma run_steps0 (p : PricingParams) (hs : p.steps = 0) :
    run p = .error .zeroDivisionError := by
  rw [run, if_pos hs]

lemma run_steps_le_neg2 (p : PricingParams) (hs : p.steps + 1 < 0) :
    run p = .error .valueError := by
  rw [run, if_neg (by omega), if_pos hs]

lemma run_steps_neg1 (p : PricingParams) (hs : p.steps = -1) :
    run p = .error .indexError := by
  have hlc := callArray_length p
  have hc : (callArray p)[0]? = none := List.getElem?_eq_none (by omega)
  rw [run, if_neg (by omega), if_neg (by omega), hc]

lemma qReal_mem_unit (p : PricingParams) (hT : 0 < p.time_to_maturity)
    (hs : 1 ≤ p.steps) (hvol : 0 < p.volatility)
    (hlo : lattice_d p ≤ Real.exp (p.interest_rate * lattice_dt p))
    (hhi : Real.exp (p.interest_rate * lattice_dt p) ≤ lattice_u p) :
    0 ≤ qReal p ∧ qReal p ≤ 1 := by
  have hud : 0 < lattice_u p - lattice_d p :=
    sub_pos.mpr (lattice_d_lt_u p hT hs hvol)
  constructor
  · exact div_nonneg (by linarith) (le_of_lt hud)
  · rw [qReal, div_le_one hud]
    linarith

lemma claimCallPrice_eq (p : PricingParams) (hs : 1 ≤ p.steps) :
    ClaimSpec.claimCallPrice p.time_to_maturity p.strike p.current_price
      p.volatility p.interest_rate p.steps.toNat = (specCallArray p).getD 0 0 := by
  have h1 : (p.steps.toNat : ℤ) = p.steps := Int.toNat_of_nonneg (by omega)
  have hcast : ((p.steps.toNat : ℕ) : ℝ) = (p.steps : ℝ) := by
    exact_mod_cast congrArg (Int.cast : ℤ → ℝ) h1
  simp only [ClaimSpec.claimCallPrice, specCallArray, lattice_disc, qReal,
    lattice_u, lattice_d, lattice_dt, hcast]

lemma claimPutPrice_eq (p : PricingParams) (hs : 1 ≤ p.steps) :
    ClaimSpec.claimPutPrice p.time_to_maturity p.strike p.current_price
      p.volatility p.interest_rate p.steps.toNat = (specPutArray p).getD 0 0 := by
  have h1 : (p.steps.toNat : ℤ) = p.steps := Int.toNat_of_nonneg (by omega)
  have hcast : ((p.steps.toNat : ℕ) : ℝ) = (p.steps : ℝ) := by
    exact_mod_cast congrArg (Int.cast : ℤ → ℝ) h1
  simp only [ClaimSpec.claimPutPrice, specPutArray, lattice_disc, qReal,
    lattice_u, lattice_d, lattice_dt, hcast]

end BinomialModel

lemma map_some_head (ys : List ℝ) (h : 0 < ys.length) :
    (ys.map some)[0]? = some (some (ys.getD 0 0)) := by
  rw [List.getElem?_map, List.getElem?_eq_getElem h, List.getD_eq_getElem _ _ h]
  rfl

lemma calculate_prices_eq_run (p : PricingParams) :
    BinomialApp.calculate_prices p = BinomialModel.run p := rfl

namespace BinomialApp

lemma cellsRow_spec (base : PricingParams) (strike vol : ℝ) :
    ∀ (spots : List ℝ) (cs : List (F × F)),
      cellsRow base strike vol spots = .ok cs →
      cs.length = spots.length ∧
      ∀ (j : ℕ) (s : ℝ), spots[j]? = some s →
        ∃ c, cs[j]? = some c ∧ heatmapCell base strike vol s = .ok c := by
  intro spots
  induction spots with
  | nil =>
    intro cs h
    simp only [cellsRow] at h
    injection h with h
    subst h
    refine ⟨rfl, ?_⟩
    intro j s hj
    simp at hj
  | cons s rest ih =>
    intro cs h
    simp only [cellsRow] at h
    split at h
    next e heq => exact absurd h (by simp)
    next c heq =>
      split at h
      next e heq2 => exact absurd h (by simp)
      next cs2 heq2 =>
        injection h with h
        subst h
        obtain ⟨hlen, hcell⟩ := ih cs2 heq2
        refine ⟨by simp [hlen], ?_⟩
        intro j x hj
        cases j with
        | zero =>
          simp only [List.getElem?_cons_zero] at hj ⊢
          injection hj with hj
          subst hj
          exact ⟨c, rfl, heq⟩
        | succ k =>
          simp only [List.getElem?_cons_succ] at hj ⊢
          exact hcell k x hj

lemma cellsGrid_spec (base : PricingParams) (strike : ℝ) (spots : List ℝ) :
    ∀ (vols : List ℝ) (rows : List (List (F × F))),
      cellsGrid base strike spots vols = .ok rows →
      rows.length = vols.length ∧
      ∀ (i : ℕ) (v : ℝ), vols[i]? = some v →
        ∃ r, rows[i]? = some r ∧ cellsRow base strike v spots = .ok r := by
  intro vols
  induction vols with
  | nil =>
    intro rows h
    simp only [cellsGrid] at h
    injection h with h
    subst h
    refine ⟨rfl, ?_⟩
    intro i v hi
    simp at hi
  | cons v rest ih =>
    intro rows h
    simp only [cellsGrid] at h
    split at h
    next e heq => exact absurd h (by simp)
    next r heq =>
      split at h
      next e heq2 => exact absurd h (by simp)
      next rs heq2 =>
        injection h with h
        subst h
        obtain ⟨hlen, hrow⟩ := ih rs heq2
        refine ⟨by simp [hlen], ?_⟩
        intro i x hi
        cases i with
        | zero =>
          simp only [List.getElem?_cons_zero] at hi ⊢
          injection hi with hi
          subst hi
          exact ⟨r, rfl, heq⟩
        | succ k =>
          simp only [List.getElem?_cons_succ] at hi ⊢
          exact hrow k x hi

end BinomialApp

open BinomialModel BinomialApp ClaimSpec

/-- C1: for every parameter set with `time_to_maturity > 0`, `strike > 0`,
`current_price > 0`, `volatility > 0` and integer `steps ≥ 1`, the call
price and the put price — the `value[0]` the code computes at lines 44
and 56, which become the `call_price` and `put_price` fields whenever the
call returns — each equal the result of the specified two-pass algorithm:
terminal payoff vector of length `steps + 1` (with `dt = T/steps`,
`u = exp(vol*sqrt(dt))`, `d = 1/u`, `q = (exp(r*dt)-d)/(u-d)`), in-place
backward induction for `j` from `steps-1` down to `0` and `i` from `0` to
`j`, returning `value[0]` (`claimCallPrice` / `claimPutPrice`). -/
theorem C1_two_pass_algorithm (p : PricingParams)
    (hT : 0 < p.time_to_maturity) (hK : 0 < p.strike) (hS : 0 < p.current_price)
    (hvol : 0 < p.volatility) (hs : 1 ≤ p.steps) :
    (callArray p)[0]? = some (some (claimCallPrice p.time_to_maturity p.strike
      p.current_price p.volatility p.interest_rate p.steps.toNat)) ∧
    (putArray p)[0]? = some (some (claimPutPrice p.time_to_maturity p.strike
      p.current_price p.volatility p.interest_rate p.steps.toNat)) ∧
    ∀ res, run p = .ok res →
      res.call_price = some (claimCallPrice p.time_to_maturity p.strike
        p.current_price p.volatility p.interest_rate p.steps.toNat) ∧
      res.put_price = some (claimPutPrice p.time_to_maturity p.strike
        p.current_price p.volatility p.interest_rate p.steps.toNat) := by
  have hlenC : 0 < (specCallArray p).length := by
    rw [specCallArray, specOuter_length, callTerminal, List.length_ofFn]
    omega
  have hlenP : 0 < (specPutArray p).length := by
    rw [specPutArray, specOuter_length, putTerminal, List.length_ofFn]
    omega
  have hcall : (callArray p)[0]? = some (some ((specCallArray p).getD 0 0)) := by
    rw [callArray_eq p hT hs hvol]
    exact map_some_head _ hlenC
  have hput : (putArray p)[0]? = some (some ((specPutArray p).getD 0 0)) := by
    rw [putArray_eq p hT hs hvol]
    exact map_some_head _ hlenP
  rw [claimCallPrice_eq p hs, claimPutPrice_eq p hs]
  refine ⟨hcall, hput, ?_⟩
  intro res hres
  obtain ⟨c, v0, v1, v2, hc, hp0, hp1, hp2, hres_eq⟩ := run_ok_elim p res hres
  subst hres_eq
  rw [hc] at hcall
  rw [hp0] at hput
  injection hcall with h1
  injection hput with h2
  exact ⟨h1, h2⟩

/-- C1 witness at `pEx`. -/
theorem C1_two_pass_algorithm_witness :
    (callArray pEx)[0]? = some (some (claimCallPrice pEx.time_to_maturity pEx.strike
      pEx.current_price pEx.volatility pEx.interest_rate pEx.steps.toNat)) ∧
    (putArray pEx)[0]? = some (some (claimPutPrice pEx.time_to_maturity pEx.strike
      pEx.current_price pEx.volatility pEx.interest_rate pEx.steps.toNat)) ∧
    ∀ res, run pEx = .ok res →
      res.call_price = some (claimCallPrice pEx.time_to_maturity pEx.strike
        pEx.current_price pEx.volatility pEx.interest_rate pEx.steps.toNat) ∧
      res.put_price = some (claimPutPrice pEx.time_to_maturity pEx.strike
        pEx.current_price pEx.volatility pEx.interest_rate pEx.steps.toNat) :=
  C1_two_pass_algorithm pEx (by norm_num [pEx]) (by norm_num [pEx])
    (by norm_num [pEx]) (Real.log_pos (by norm_num)) (by norm_num [pEx])

/-- C2 (amended): the pricing call is total — it completes without any
runtime error and returns a `PricingResult` — for valid inputs with
`steps ≥ 2` (not `steps ≥ 1` as claimed: at `steps = 1` the put array has
length 2 and the Greek read `option_prices[2]` is out of bounds, raising
IndexError). -/
theorem C2_totality (p : PricingParams) (hT : 0 < p.time_to_maturity)
    (hK : 0 < p.strike) (hS : 0 < p.current_price) (hvol : 0 < p.volatility)
    (hs : 2 ≤ p.steps) : ∃ res, run p = .ok res :=
  run_ok_of_steps_ge_two p hs

/-- C2 witness at `pEx`. -/
theorem C2_totality_witness : ∃ res, run pEx = .ok res :=
  C2_totality pEx (by norm_num [pEx]) (by norm_num [pEx]) (by norm_num [pEx])
    (Real.log_pos (by norm_num)) (by norm_num [pEx])

/-- C2 counterexample: `pOneStep` satisfies every hypothesis of the claim
(positive maturity, strike, spot and volatility, `steps = 1 ≥ 1`), yet the
pricing call is not total — it raises IndexError on the Greek read
`option_prices[2]` of the length-2 put array. -/
theorem C2_totality_counterexample :
    0 < pOneStep.time_to_maturity ∧ 0 < pOneStep.strike ∧
    0 < pOneStep.current_price ∧ 0 < pOneStep.volatility ∧ 1 ≤ pOneStep.steps ∧
    run pOneStep = .error .indexError :=
  ⟨by norm_num [pOneStep], by norm_num [pOneStep], by norm_num [pOneStep],
    by norm_num [pOneStep], by norm_num [pOneStep], run_steps1 pOneStep rfl⟩

/-- C3: for every successful pricing call, the Greeks come from the put
price array exactly as it stands after the put pass's backward induction,
read at literal indices 0, 1, 2:
`call_delta = (value[1]-value[0]) / (spot*u - spot*d)` and
`call_gamma = put_gamma = (value[2]-2*value[1]+value[0]) /
(0.5*(spot*u-spot*d)^2)`, with no separate one- or two-step sub-lattice
(the array read is `putArray`, the residual induction state itself). -/
theorem C3_greeks_from_residual_array (p : PricingParams) (res : PricingResult)
    (h : run p = .ok res) :
    res.call_delta = fdiv (fsub ((putArray p).getD 1 none) ((putArray p).getD 0 none))
      (some (deltaDen p)) ∧
    res.call_gamma = fdiv (fadd (fsub ((putArray p).getD 2 none)
        (fmul (some 2) ((putArray p).getD 1 none))) ((putArray p).getD 0 none))
      (some (0.5 * deltaDen p ^ 2)) ∧
    res.put_gamma = res.call_gamma := by
  obtain ⟨c, v0, v1, v2, hc, hp0, hp1, hp2, hres⟩ := run_ok_elim p res h
  have g0 : (putArray p).getD 0 none = v0 := by
    rw [List.getD_eq_getElem?_getD, hp0]
    rfl
  have g1 : (putArray p).getD 1 none = v1 := by
    rw [List.getD_eq_getElem?_getD, hp1]
    rfl
  have g2 : (putArray p).getD 2 none = v2 := by
    rw [List.getD_eq_getElem?_getD, hp2]
    rfl
  subst hres
  rw [g0, g1, g2]
  exact ⟨rfl, rfl, rfl⟩

/-- C3 witness at `pEx`. -/
theorem C3_greeks_from_residual_array_witness :
    resEx.call_delta = fdiv (fsub ((putArray pEx).getD 1 none)
      ((putArray pEx).getD 0 none)) (some (deltaDen pEx)) ∧
    resEx.call_gamma = fdiv (fadd (fsub ((putArray pEx).getD 2 none)
        (fmul (some 2) ((putArray pEx).getD 1 none))) ((putArray pEx).getD 0 none))
      (some (0.5 * deltaDen pEx ^ 2)) ∧
    resEx.put_gamma = resEx.call_gamma :=
  C3_greeks_from_residual_array pEx resEx run_pEx

/-- C4 (amended): for every successful pricing call, `call_gamma =
put_gamma` holds exactly (both fields are the same value by
construction); and whenever the Delta is a finite value (in particular
whenever `volatility > 0`), `put_delta + call_delta = 1` exactly.  When
`volatility = 0` the call still succeeds for `steps ≥ 2` but its Delta
fields are non-finite (NaN), and their sum is NaN, not 1. -/
theorem C4_parity_identities (p : PricingParams) (res : PricingResult)
    (h : run p = .ok res) :
    res.call_gamma = res.put_gamma ∧
    ∀ dv : ℝ, res.call_delta = some dv →
      fadd res.put_delta res.call_delta = some 1 := by
  obtain ⟨c, v0, v1, v2, hc, hp0, hp1, hp2, hres⟩ := run_ok_elim p res h
  subst hres
  refine ⟨rfl, ?_⟩
  intro dv hdv
  show fadd (fsub (some 1) (fdiv (fsub v1 v0) (some (deltaDen p))))
    (fdiv (fsub v1 v0) (some (deltaDen p))) = some 1
  have hdv2 : fdiv (fsub v1 v0) (some (deltaDen p)) = some dv := hdv
  rw [hdv2]
  simp [fsub, fadd]

/-- C4 witness at `pEx`: the identities hold concretely, with the Delta
instantiated at its finite value `-2/9`. -/
theorem C4_parity_identities_witness :
    fadd resEx.put_delta resEx.call_delta = some 1 ∧
    resEx.call_gamma = resEx.put_gamma := by
  obtain ⟨hg, hd⟩ := C4_parity_identities pEx resEx run_pEx
  exact ⟨hd (-(2 / 9)) rfl, hg⟩

/-- C4 counterexample: at `pVol0` (zero volatility, `steps = 2`) the call
succeeds, but both Delta fields are non-finite, so
`put_delta + call_delta` is NaN, not exactly 1. -/
theorem C4_parity_identities_counterexample :
    run pVol0 = .ok resNaN ∧ fadd resNaN.put_delta resNaN.call_delta ≠ some 1 :=
  ⟨run_vol0 pVol0 rfl (by norm_num [pVol0]), by simp [resNaN, fadd]⟩

/-- C5 (amended): for valid parameters (`steps ≥ 1`, positive maturity,
strike, spot, volatility) whose risk-neutral probability lies in `[0,1]`
— equivalently `d ≤ exp(r*dt) ≤ u` — the computed call price and put
price (the `value[0]` entries, returned as `call_price`/`put_price`
whenever the call returns) are nonnegative.  The claim's inclusion of
parameter sets with `q` outside `[0,1]` is refuted by the counterexample:
there the backward induction has a negative weight and can produce a
negative price, which the engine returns as computed. -/
theorem C5_nonneg_prices (p : PricingParams) (hT : 0 < p.time_to_maturity)
    (hK : 0 < p.strike) (hS : 0 < p.current_price) (hvol : 0 < p.volatility)
    (hs : 1 ≤ p.steps)
    (hlo : lattice_d p ≤ Real.exp (p.interest_rate * lattice_dt p))
    (hhi : Real.exp (p.interest_rate * lattice_dt p) ≤ lattice_u p) :
    ∃ c pp : ℝ, (callArray p)[0]? = some (some c) ∧ 0 ≤ c ∧
      (putArray p)[0]? = some (some pp) ∧ 0 ≤ pp ∧
      ∀ res, run p = .ok res → res.call_price = some c ∧ res.put_price = some pp := by
  obtain ⟨hq0, hq1⟩ := qReal_mem_unit p hT hs hvol hlo hhi
  have hdisc := le_of_lt (lattice_disc_pos p)
  have hlenC : 0 < (specCallArray p).length := by
    rw [specCallArray, specOuter_length, callTerminal, List.length_ofFn]
    omega
  have hlenP : 0 < (specPutArray p).length := by
    rw [specPutArray, specOuter_length, putTerminal, List.length_ofFn]
    omega
  have hcall : (callArray p)[0]? = some (some ((specCallArray p).getD 0 0)) := by
    rw [callArray_eq p hT hs hvol]
    exact map_some_head _ hlenC
  have hput : (putArray p)[0]? = some (some ((specPutArray p).getD 0 0)) := by
    rw [putArray_eq p hT hs hvol]
    exact map_some_head _ hlenP
  refine ⟨(specCallArray p).getD 0 0, (specPutArray p).getD 0 0, hcall, ?_, hput, ?_, ?_⟩
  · rw [specCallArray]
    exact specOuter_nonneg _ _ hdisc hq0 hq1 _ _ (callTerminal_nonneg _ _ _ _ _) 0
  · rw [specPutArray]
    exact specOuter_nonneg _ _ hdisc hq0 hq1 _ _ (putTerminal_nonneg _ _ _ _ _) 0
  · intro res hres
    obtain ⟨c, v0, v1, v2, hc, hp0, hp1, hp2, hres_eq⟩ := run_ok_elim p res hres
    subst hres_eq
    rw [hc] at hcall
    rw [hp0] at hput
    injection hcall with h1
    injection hput with h2
    exact ⟨h1, h2⟩

/-- C5 witness at `pEx` (there `d = 1/2 ≤ exp(r*dt) = 1 ≤ u = 2`). -/
theorem C5_nonneg_prices_witness :
    ∃ c pp : ℝ, (callArray pEx)[0]? = some (some c) ∧ 0 ≤ c ∧
      (putArray pEx)[0]? = some (some pp) ∧ 0 ≤ pp ∧
      ∀ res, run pEx = .ok res →
        res.call_price = some c ∧ res.put_price = some pp := by
  refine C5_nonneg_prices pEx (by norm_num [pEx]) (by norm_num [pEx])
    (by norm_num [pEx]) (Real.log_pos (by norm_num)) (by norm_num [pEx]) ?_ ?_
  · rw [lattice_d_pEx, lattice_dt_pEx, show pEx.interest_rate = 0 from rfl,
      zero_mul, Real.exp_zero]
    norm_num
  · rw [lattice_u_pEx, lattice_dt_pEx, show pEx.interest_rate = 0 from rfl,
      zero_mul, Real.exp_zero]
    norm_num

/-- C5 counterexample: at `pQbig` every validity hypothesis of the claim
holds and `q = 2` lies outside `[0,1]`; the pricing call succeeds and
returns the negative put price `-3/7`. -/
theorem C5_nonneg_prices_counterexample :
    run pQbig = .ok resQbig ∧ resQbig.put_price = some (-(3 / 7)) ∧
    ¬(0 : ℝ) ≤ -(3 / 7) :=
  ⟨run_pQbig, rfl, by norm_num⟩

/-- C6 (amended): with `volatility = 0` the lattice is degenerate
(`u = d = 1`) and the risk-neutral probability has a zero denominator —
but numpy scalar division does not raise; it produces a non-finite value
that propagates through the backward induction and the Greek formulas, so
for `steps ≥ 2` the call succeeds and silently returns non-finite (NaN)
values for all six outputs, rather than failing with a division-by-zero
error as the claim states.  (At `steps = 1` it fails, but with IndexError
on the Greek read, not a division error.) -/
theorem C6_degenerate_silent_nan (p : PricingParams) (hvol : p.volatility = 0)
    (hs : 2 ≤ p.steps) : run p = .ok resNaN :=
  run_vol0 p hvol hs

/-- C6 witness at `pVol0`. -/
theorem C6_degenerate_silent_nan_witness : run pVol0 = .ok resNaN :=
  C6_degenerate_silent_nan pVol0 rfl (by norm_num [pVol0])

/-- C6 counterexample: at `pVol0` (zero volatility, otherwise valid
parameters) the pricing call does not fail at all — in particular not
with a division-by-zero error — it returns a result whose entries are all
non-finite (silent NaN propagation). -/
theorem C6_degenerate_counterexample :
    run pVol0 = .ok resNaN ∧ run pVol0 ≠ .error .zeroDivisionError := by
  have h := run_vol0 pVol0 rfl (by norm_num [pVol0])
  refine ⟨h, ?_⟩
  rw [h]
  simp

/-- C7 (amended): for every input with `steps < 1` the pricing call does
fail and never returns a numeric result, but the failure is not an
invalid-parameter error (the code performs no validation): at `steps = 0`
the Python division `time_to_maturity / steps` raises ZeroDivisionError;
at `steps = -1` the empty price array makes `option_prices[0]` raise
IndexError; for `steps ≤ -2`, `np.zeros(steps + 1)` raises ValueError. -/
theorem C7_steps_error_kind (p : PricingParams) (hs : p.steps < 1) :
    ∃ e, run p = .error e ∧ e ≠ PyErr.invalidParameter := by
  by_cases h0 : p.steps = 0
  · exact ⟨.zeroDivisionError, run_steps0 p h0, by decide⟩
  by_cases h1 : p.steps = -1
  · exact ⟨.indexError, run_steps_neg1 p h1, by decide⟩
  · exact ⟨.valueError, run_steps_le_neg2 p (by omega), by decide⟩

/-- C7 witness at `pZeroSteps`. -/
theorem C7_steps_error_kind_witness :
    ∃ e, run pZeroSteps = .error e ∧ e ≠ PyErr.invalidParameter :=
  C7_steps_error_kind pZeroSteps (by norm_num [pZeroSteps])

/-- C7 counterexample: at `steps = 0` the call fails with exactly the
arithmetic failure the claim excludes — ZeroDivisionError from
`dt = time_to_maturity / steps` — not an invalid-parameter error. -/
theorem C7_steps_error_kind_counterexample :
    pZeroSteps.steps < 1 ∧ run pZeroSteps = .error .zeroDivisionError ∧
    PyErr.zeroDivisionError ≠ PyErr.invalidParameter :=
  ⟨by norm_num [pZeroSteps], run_steps0 pZeroSteps rfl, by decide⟩

/-- C8: whenever the sweep completes, the call-price and put-price grids
have exactly `len(vol_range)` rows of `len(spot_range)` entries each, and
cell `[i][j]` of each grid equals the corresponding price from a single
independent pricing call with `volatility = vol_range[i]`,
`current_price = spot_range[j]`, the fixed strike and the base
parameters (no caching or cross-cell interference). -/
theorem C8_heatmap_sweep (base : PricingParams) (spot_range vol_range : List ℝ)
    (strike : ℝ) (cg pg : List (List F))
    (h : plot_heatmap base spot_range vol_range strike = .ok (cg, pg)) :
    cg.length = vol_range.length ∧ pg.length = vol_range.length ∧
    ∀ (i j : ℕ) (vol spot : ℝ),
      vol_range[i]? = some vol → spot_range[j]? = some spot →
      ∃ res crow prow,
        calculate_prices ⟨base.time_to_maturity, strike, spot, vol,
          base.interest_rate, base.steps⟩ = .ok res ∧
        cg[i]? = some crow ∧ pg[i]? = some prow ∧
        crow.length = spot_range.length ∧ prow.length = spot_range.length ∧
        crow[j]? = some res.call_price ∧ prow[j]? = some res.put_price := by
  rw [plot_heatmap] at h
  split at h
  next e heq => exact absurd h (by simp)
  next rows heq =>
    injection h with h
    injection h with h1 h2
    subst h1
    subst h2
    obtain ⟨hglen, hgrid⟩ := cellsGrid_spec base strike spot_range vol_range rows heq
    refine ⟨by simp [hglen], by simp [hglen], ?_⟩
    intro i j vol spot hi hj
    obtain ⟨r, hri, hrow_ok⟩ := hgrid i vol hi
    obtain ⟨hrlen, hcells⟩ := cellsRow_spec base strike vol spot_range r hrow_ok
    obtain ⟨c, hcj, hcell⟩ := hcells j spot hj
    rw [heatmapCell] at hcell
    split at hcell
    next res heqr =>
      injection hcell with hcell
      refine ⟨res, r.map Prod.fst, r.map Prod.snd, heqr, ?_, ?_,
        by simp [hrlen], by simp [hrlen], ?_, ?_⟩
      · rw [List.getElem?_map, hri]
        rfl
      · rw [List.getElem?_map, hri]
        rfl
      · rw [List.getElem?_map, hcj, ← hcell]
        rfl
      · rw [List.getElem?_map, hcj, ← hcell]
        rfl
    next e heqr => exact absurd hcell (by simp)

lemma plot_heatmap_pEx :
    plot_heatmap pEx [1] [Real.log 2] 1 =
      .ok ([[some (1 / 3)]], [[some (1 / 3)]]) := by
  have hcell : heatmapCell pEx 1 (Real.log 2) 1 = .ok (some (1 / 3), some (1 / 3)) := by
    rw [heatmapCell,
      show (⟨pEx.time_to_maturity, 1, 1, Real.log 2, pEx.interest_rate, pEx.steps⟩ :
        PricingParams) = pEx from rfl,
      calculate_prices_eq_run, run_pEx]
    rfl
  have hrow : cellsRow pEx 1 (Real.log 2) [1] = .ok [(some (1 / 3), some (1 / 3))] := by
    rw [cellsRow, hcell]
    rfl
  have hgrid : cellsGrid pEx 1 [1] [Real.log 2] =
      .ok [[(some (1 / 3), some (1 / 3))]] := by
    rw [cellsGrid, hrow]
    rfl
  rw [plot_heatmap, hgrid]
  rfl

/-- C8 witness: a 1x1 sweep at `pEx`. -/
theorem C8_heatmap_sweep_witness :
    [[some ((1 : ℝ) / 3)]].length = [Real.log 2].length ∧
    [[some ((1 : ℝ) / 3)]].length = [Real.log 2].length ∧
    ∀ (i j : ℕ) (vol spot : ℝ),
      [Real.log 2][i]? = some vol → ([1] : List ℝ)[j]? = some spot →
      ∃ res crow prow,
        calculate_prices ⟨pEx.time_to_maturity, 1, spot, vol,
          pEx.interest_rate, pEx.steps⟩ = .ok res ∧
        [[some ((1 : ℝ) / 3)]][i]? = some crow ∧
        [[some ((1 : ℝ) / 3)]][i]? = some prow ∧
        crow.length = ([1] : List ℝ).length ∧ prow.length = ([1] : List ℝ).length ∧
        crow[j]? = some res.call_price ∧ prow[j]? = some res.put_price :=
  C8_heatmap_sweep pEx [1] [Real.log 2] 1 [[some (1 / 3)]] [[some (1 / 3)]]
    plot_heatmap_pEx

/-- C9: for every input with `time_to_maturity > 0`, `steps ≥ 1` and
`volatility > 0`, the computed factors satisfy `d < 1 < u`, where
`u = exp(volatility * sqrt(time_to_maturity/steps))` (`lattice_u`) and
`d = 1/u` (`lattice_d`). -/
theorem C9_up_down_factors (p : PricingParams) (hT : 0 < p.time_to_maturity)
    (hs : 1 ≤ p.steps) (hvol : 0 < p.volatility) :
    lattice_d p < 1 ∧ 1 < lattice_u p :=
  ⟨lattice_d_lt_one p hT hs hvol, one_lt_lattice_u p hT hs hvol⟩

/-- C9 witness at `pEx`. -/
theorem C9_up_down_factors_witness : lattice_d pEx < 1 ∧ 1 < lattice_u pEx :=
  C9_up_down_factors pEx (by norm_num [pEx]) (by norm_num [pEx])
    (Real.log_pos (by norm_num))

/-- C10: on every parameter set the pricing routine of the standalone
model file (`BinomialModel.run`) and the copy embedded in the app file
(`BinomialApp.calculate_prices`) agree as functions — in particular, on
every input on which both succeed they produce identical values for all
six outputs (`call_price`, `put_price`, `call_delta`, `put_delta`,
`call_gamma`, `put_gamma`), and they agree on the error raised otherwise. -/
theorem C10_app_model_equivalence :
    ∀ p : PricingParams, calculate_prices p = run p :=
  calculate_prices_eq_run
